import Mathlib

/-!
# Cookie-backed CSRF token store (`store.go`)

A shallow embedding of `CookieStore.Get` and `CookieStore.Save` from
`store.go`, together with the small part of their collaborators they touch:
the request's cookie lookup, the response's header list with the standard
library's `http.SetCookie`, the clock and the authenticated codec.  Go's multiple return values `([]byte, error)` are pairs
of options (`none` is Go's `nil`), the clock read `time.Now()` is an explicit
argument, and the response writer is passed in and handed back.
-/

namespace csrf

/-- One Go `byte`. -/
abbrev Byte := Fin 256

/-- A Go `[]byte`. -/
abbrev Bytes := List Byte

/-- Go `error` values: the sentinel `http.ErrNoCookie`, or any other error,
told apart by its message.  The codec may return any of them. -/
inductive GoError where
  | ErrNoCookie
  | other (msg : String)
  deriving DecidableEq, Repr

/-- Go's `make([]byte, n)`: `n` zero bytes. -/
def make (n : Nat) : Bytes := List.replicate n 0

/-- Modelled from the spec: the package constant `tokenLength`, declared in
another file of the package; the spec fixes a token at 32 bytes (256 bits). -/
def tokenLength : Nat := 32

namespace time

/-- An instant of the standard library's `time.Time`, as nanoseconds since
the Unix epoch. -/
structure Time where
  unixNano : Int
  deriving DecidableEq, Repr

/-- A `time.Duration`: a signed 64-bit count of nanoseconds. -/
abbrev Duration := Int

/-- Two's-complement wrap of an integer into the range of `int64`. -/
def wrapInt64 (x : Int) : Int := (x + 2 ^ 63) % 2 ^ 64 - 2 ^ 63

/-- The constant `time.Second`, in nanoseconds. -/
def Second : Duration := 1000000000

/-- The conversion `time.Duration(n)` of a Go `int` (64 bits wide). -/
def toDuration (n : Int) : Duration := wrapInt64 n

/-- Multiplication of two durations, in wrapping `int64` arithmetic. -/
def Duration.mul (a b : Duration) : Duration := wrapInt64 (a * b)

/-- The instant `time.Unix(sec, nsec)`. -/
def Unix (sec nsec : Int) : Time := ⟨sec * 1000000000 + nsec⟩

/-- The instant `t.Add(d)`. -/
def Time.Add (t : Time) (d : Duration) : Time := ⟨t.unixNano + d⟩

/-- The test `t.Before(u)`. -/
def Time.Before (t u : Time) : Prop := t.unixNano < u.unixNano

instance (t u : Time) : Decidable (t.Before u) := by
  unfold Time.Before; exact inferInstance

/-- The zero value of `time.Time`: January 1 of year 1, 00:00:00 UTC. -/
def zeroTime : Time := Unix (-62135596800) 0

end time

namespace http

/-- The fields of `http.Cookie` that a cookie set by this package can carry;
each defaults to the zero value of its Go type. -/
structure Cookie where
  Name : String := ""
  Value : String := ""
  Path : String := ""
  Domain : String := ""
  Expires : time.Time := time.zeroTime
  MaxAge : Int := 0
  Secure : Bool := false
  HttpOnly : Bool := false
  deriving DecidableEq, Repr

/-- An inbound `http.Request` of the standard library, as the cookies its
headers carry, in order. -/
structure Request where
  cookies : List Cookie
  deriving DecidableEq, Repr

/-- The standard library's `r.Cookie(name)`: the named cookie of the request,
or `ErrNoCookie` when the request carries none of that name. -/
def Request.Cookie (r : Request) (name : String) : Except GoError Cookie :=
  match r.cookies.find? (fun ck => ck.Name == name) with
  | some ck => .ok ck
  | none => .error GoError.ErrNoCookie

/-- One line of the response header. -/
inductive HeaderLine where
  | setCookie (cookie : Cookie)
  | other (key value : String)
  deriving DecidableEq, Repr

/-- An outbound `http.ResponseWriter` of the standard library, as its header
lines. -/
structure ResponseWriter where
  header : List HeaderLine
  deriving DecidableEq, Repr

/-- The token characters of a header, by code point: the ASCII digits and
letters and the fifteen marks from `!` (33) to `~` (126) that net/http
admits in a cookie name. -/
def isTokenRune (r : Char) : Bool :=
  (48 ≤ r.toNat && r.toNat ≤ 57) || (65 ≤ r.toNat && r.toNat ≤ 90) ||
  (97 ≤ r.toNat && r.toNat ≤ 122) ||
  [33, 35, 36, 37, 38, 39, 42, 43, 45, 46, 94, 95, 96, 124, 126].contains r.toNat

/-- The standard library's `isCookieNameValid`: the name is not empty and
every character of it is a token character. -/
def isCookieNameValid (raw : String) : Bool :=
  raw != "" && raw.data.all isTokenRune

/-- The standard library's `http.SetCookie(w, cookie)`: it appends one
`Set-Cookie` line carrying the cookie to the response header when the
cookie's name is valid, and drops the cookie without a word when it is not
(the cookie then renders as the empty string, which is never added). -/
def SetCookie (w : ResponseWriter) (cookie : Cookie) : ResponseWriter :=
  if isCookieNameValid cookie.Name then
    { w with header := w.header ++ [HeaderLine.setCookie cookie] }
  else w

end http

namespace securecookie

/-- The authenticated codec `*securecookie.SecureCookie`, taken as given.
`Encode name value` yields the cookie string or an error; `Decode name value
dst` is handed the current content of the destination and yields its new
content or an error. -/
structure SecureCookie where
  Encode : String → Bytes → Except GoError String
  Decode : String → String → Bytes → Except GoError Bytes

end securecookie

namespace web

/-- The request context `web.C`; `Get` receives it and never reads it. -/
structure C where
  URLParams : List (String × String) := []

end web

/-- The struct `CookieStore`. -/
structure CookieStore where
  name : String
  maxAge : Int
  sc : securecookie.SecureCookie

/-- `CookieStore.Get`: the token and error it returns. -/
def CookieStore.Get (cs : CookieStore) (_c : web.C) (r : http.Request) :
    Option Bytes × Option GoError :=
  match r.Cookie cs.name with
  | .error err => (none, some err)
  | .ok cookie =>
    let token := make tokenLength
    match cs.sc.Decode cs.name cookie.Value token with
    | .error err => (none, some err)
    | .ok token => (some token, none)

/-- `CookieStore.Save`, run at the instant `now`: the response after the call
and the error it returns. -/
def CookieStore.Save (cs : CookieStore) (token : Bytes) (w : http.ResponseWriter)
    (now : time.Time) : http.ResponseWriter × Option GoError :=
  match cs.sc.Encode cs.name token with
  | .error err => (w, some err)
  | .ok encoded =>
    let cookie : http.Cookie := { Name := cs.name, Value := encoded, MaxAge := cs.maxAge }
    let cookie : http.Cookie :=
      if cs.maxAge > 0 then
        { cookie with
          Expires := now.Add (time.Duration.mul (time.toDuration cs.maxAge) time.Second) }
      else
        { cookie with Expires := time.Unix 1 0 }
    (http.SetCookie w cookie, none)

/-! ## Concrete codecs and requests used to evaluate the definitions -/

/-- A codec that seals one token `T`: under a name it writes the name followed
by a fixed seal, and it opens nothing else. -/
def sealCodec (T : Bytes) : securecookie.SecureCookie where
  Encode name tok :=
    if tok = T then .ok (name ++ "|sealed")
    else .error (GoError.other "securecookie: the value is too long")
  Decode name value _ :=
    if value = name ++ "|sealed" then .ok T
    else .error (GoError.other "securecookie: the value is not valid")

/-- A token of `tokenLength` bytes. -/
def sampleToken : Bytes := List.replicate 32 7

/-- A store named `csrf_token`, one hour of max-age, sealing `sampleToken`. -/
def sampleStore : CookieStore :=
  { name := "csrf_token", maxAge := 3600, sc := sealCodec sampleToken }

/-- A request carrying the single cookie `name=value`. -/
def requestWith (name value : String) : http.Request :=
  { cookies := [{ Name := name, Value := value }] }

/-- An empty response. -/
def emptyResponse : http.ResponseWriter := { header := [] }

/-! ## Shared lemmas -/

/-- What `Get` returns once the lookup found a cookie and `Decode` failed. -/
theorem Get_of_decode_error (cs : CookieStore) (c : web.C) (r : http.Request)
    (ck : http.Cookie) (e : GoError)
    (hreq : r.Cookie cs.name = Except.ok ck)
    (hdec : cs.sc.Decode cs.name ck.Value (make tokenLength) = Except.error e) :
    cs.Get c r = (none, some e) := by
  simp [CookieStore.Get, hreq, hdec]

/-- What `Get` returns once the lookup found a cookie and `Decode` succeeded. -/
theorem Get_of_decode_ok (cs : CookieStore) (c : web.C) (r : http.Request)
    (ck : http.Cookie) (p : Bytes)
    (hreq : r.Cookie cs.name = Except.ok ck)
    (hdec : cs.sc.Decode cs.name ck.Value (make tokenLength) = Except.ok p) :
    cs.Get c r = (some p, none) := by
  simp [CookieStore.Get, hreq, hdec]

/-- The cookie `Save` builds from the encoded value at the instant `now` and
hands to `http.SetCookie`. -/
theorem Save_of_encode_ok (cs : CookieStore) (token : Bytes) (w : http.ResponseWriter)
    (now : time.Time) (v : String)
    (henc : cs.sc.Encode cs.name token = Except.ok v) :
    cs.Save token w now =
      (http.SetCookie w
          { Name := cs.name, Value := v, MaxAge := cs.maxAge,
            Expires := if cs.maxAge > 0 then
                now.Add (time.Duration.mul (time.toDuration cs.maxAge) time.Second)
              else time.Unix 1 0 }, none) := by
  simp only [CookieStore.Save, henc]
  split <;> rfl

/-- With a valid name `http.SetCookie` appends the cookie. -/
theorem SetCookie_of_valid (w : http.ResponseWriter) (ck : http.Cookie)
    (h : http.isCookieNameValid ck.Name = true) :
    http.SetCookie w ck = { header := w.header ++ [http.HeaderLine.setCookie ck] } := by
  simp [http.SetCookie, h]

/-- With an invalid name `http.SetCookie` leaves the response as it is. -/
theorem SetCookie_of_invalid (w : http.ResponseWriter) (ck : http.Cookie)
    (h : http.isCookieNameValid ck.Name = false) :
    http.SetCookie w ck = w := by
  simp [http.SetCookie, h]

/-- A line that `http.SetCookie` appended is the line of the cookie it was given. -/
theorem SetCookie_appended (w : http.ResponseWriter) (ck written : http.Cookie)
    (h : (http.SetCookie w ck).header = w.header ++ [http.HeaderLine.setCookie written]) :
    written = ck := by
  unfold http.SetCookie at h
  split at h
  · simp only [List.append_cancel_left_eq, List.cons.injEq, and_true,
      http.HeaderLine.setCookie.injEq] at h
    exact h.symm
  · simp at h

/-- `Save` hands back the response untouched together with the error of `Encode`. -/
theorem Save_of_encode_error (cs : CookieStore) (token : Bytes) (w : http.ResponseWriter)
    (now : time.Time) (e : GoError)
    (henc : cs.sc.Encode cs.name token = Except.error e) :
    cs.Save token w now = (w, some e) := by
  simp [CookieStore.Save, henc]

/-- The lookup of a request with a single cookie of the asked name. -/
theorem requestWith_Cookie (name value : String) :
    (requestWith name value).Cookie name = Except.ok { Name := name, Value := value } := by
  simp [requestWith, http.Request.Cookie, List.find?]

/-! ## Round trip -/

/-- C1: for every store whose codec's Decode inverts its Encode under the same
name and for every token T (in particular every token of tokenLength bytes),
if Save(T, w) succeeds and wrote a cookie, and the request's cookie of the
configured name carries exactly the value of that cookie, then Get returns
(T, nil). -/
theorem Get_after_Save_roundtrip (cs : CookieStore) (T : Bytes) (w : http.ResponseWriter)
    (now : time.Time) (c : web.C) (r : http.Request) (written got : http.Cookie)
    (hlen : T.length = tokenLength)
    (hinv : ∀ name tok val dst, cs.sc.Encode name tok = Except.ok val →
      cs.sc.Decode name val dst = Except.ok tok)
    (hsave : (cs.Save T w now).2 = none)
    (hwrote : (cs.Save T w now).1.header = w.header ++ [http.HeaderLine.setCookie written])
    (hreq : r.Cookie cs.name = Except.ok got)
    (hval : got.Value = written.Value) :
    cs.Get c r = (some T, none) ∧ (∀ t, (cs.Get c r).1 = some t → t.length = tokenLength) := by
  cases henc : cs.sc.Encode cs.name T with
  | error e => rw [Save_of_encode_error cs T w now e henc] at hsave; simp at hsave
  | ok v =>
    rw [Save_of_encode_ok cs T w now v henc] at hwrote
    have hwritten := SetCookie_appended w _ written hwrote
    have hv : got.Value = v := by rw [hval, hwritten]
    have hget := Get_of_decode_ok cs c r got T hreq (by rw [hv]; exact hinv _ _ _ _ henc)
    refine ⟨hget, ?_⟩
    intro t ht
    rw [hget] at ht
    simp only [Option.some.injEq] at ht
    rw [← ht]; exact hlen

/-- The seal codec opens, under a name, what it sealed under that name. -/
theorem sealCodec_inverts (T : Bytes) (name : String) (tok : Bytes) (val : String) (dst : Bytes)
    (h : (sealCodec T).Encode name tok = Except.ok val) :
    (sealCodec T).Decode name val dst = Except.ok tok := by
  simp only [sealCodec] at h ⊢
  split at h
  · rename_i ht
    simp only [Except.ok.injEq] at h
    simp [← h, ht]
  · simp at h

/-- The seal codec rejects every value other than the one it writes under the name. -/
theorem sealCodec_rejects (T : Bytes) (name val : String) (dst : Bytes)
    (h : val ≠ name ++ "|sealed") :
    ∃ e, (sealCodec T).Decode name val dst = Except.error e := by
  simp [sealCodec, h]

/-- Witness of C1: the sample token saved by the sample store and read back. -/
theorem Get_after_Save_roundtrip_witness :
    sampleToken.length = tokenLength ∧
    (sampleStore.Save sampleToken emptyResponse (time.Unix 1700000000 0)).2 = none ∧
    sampleStore.Get {} (requestWith "csrf_token" "csrf_token|sealed") = (some sampleToken, none) :=
  ⟨by decide, by decide,
    (Get_after_Save_roundtrip sampleStore sampleToken emptyResponse (time.Unix 1700000000 0) {}
      (requestWith "csrf_token" "csrf_token|sealed")
      { Name := "csrf_token", Value := "csrf_token|sealed", MaxAge := 3600,
        Expires := time.Unix 1700003600 0 }
      { Name := "csrf_token", Value := "csrf_token|sealed" }
      (by decide) (fun name tok val dst h => sealCodec_inverts sampleToken name tok val dst h)
      (by decide) (by decide) (requestWith_Cookie _ _) rfl).1⟩

/-! ## Tampering -/

/-- The value `tagCodec` writes for a token under a name: the name, a bar, and
one character per byte (the byte 7 as the digit `7`). -/
def tagValue (name : String) (tok : Bytes) : String :=
  name ++ "|" ++ String.mk (tok.map fun b => Char.ofNat (b.val + 48))

/-- A codec for every token and every name. Decode reads the bytes back from
the characters after the name and the bar, writes them again under the name it
was given, and accepts the value only when that gives the very same string. -/
def tagCodec : securecookie.SecureCookie where
  Encode name tok := .ok (tagValue name tok)
  Decode name value _ :=
    let tok : Bytes :=
      (value.data.drop (name.length + 1)).map fun ch => Fin.ofNat (ch.toNat + 208)
    if value = tagValue name tok then .ok tok
    else .error (GoError.other "securecookie: the value is not valid")

/-- A store named `csrf_token` over `tagCodec`. -/
def tagStore : CookieStore :=
  { name := "csrf_token", maxAge := 3600, sc := tagCodec }

/-- Another token of `tokenLength` bytes. -/
def otherToken : Bytes := List.replicate 32 8

/-- The bar stands in every value `tagCodec` writes. -/
theorem bar_mem_tagValue (name : String) (tok : Bytes) :
    (Char.ofNat 124) ∈ (tagValue name tok).data := by
  simp [tagValue, String.data_append]

/-- Under every name `tagCodec` rejects every value it did not produce. -/
theorem tagCodec_rejects_unproduced (name val : String) (dst : Bytes)
    (hnew : ∀ n tok, tagCodec.Encode n tok ≠ Except.ok val) :
    ∃ e, tagCodec.Decode name val dst = Except.error e := by
  simp only [tagCodec] at hnew ⊢
  split
  · rename_i h
    exact absurd (congrArg Except.ok h.symm) (hnew _ _)
  · exact ⟨_, rfl⟩

/-- C2, as stated, fails: `tagCodec` rejects every value it did not produce,
yet the value it wrote for another token differs from the value Save wrote for
the sample token, and Get on a request carrying it returns that other token
with a nil error. -/
theorem Get_accepts_value_of_other_token :
    tagStore.sc.Encode tagStore.name sampleToken
      = Except.ok "csrf_token|77777777777777777777777777777777" ∧
    tagStore.sc.Encode tagStore.name otherToken
      = Except.ok "csrf_token|88888888888888888888888888888888" ∧
    "csrf_token|88888888888888888888888888888888"
      ≠ "csrf_token|77777777777777777777777777777777" ∧
    (∀ val dst, (∀ n tok, tagStore.sc.Encode n tok ≠ Except.ok val) →
      ∃ e, tagStore.sc.Decode tagStore.name val dst = Except.error e) ∧
    tagStore.Get {} (requestWith "csrf_token" "csrf_token|88888888888888888888888888888888")
      = (some otherToken, none) ∧
    otherToken ≠ sampleToken := by
  refine ⟨congrArg Except.ok (by decide), congrArg Except.ok (by decide), by decide, ?_,
    by decide, by decide⟩
  intro val dst hnew
  exact tagCodec_rejects_unproduced tagStore.name val dst hnew

/-- C2, amended: let the codec's Decode reject every value the codec did not
produce (for any name and token). Then for every cookie value v' that the
codec did not produce, Get on a request carrying v' under the configured name
returns an error and a nil token, and such a v' differs from the value
v = Encode(name, T) that Save wrote for any token T; and on every request Get
returns a token with a nil error only from a cookie value that the codec
produced. -/
theorem Get_rejects_unproduced (cs : CookieStore) (v' : String) (c : web.C)
    (r : http.Request) (got : http.Cookie)
    (hrej : ∀ val dst, (∀ n tok, cs.sc.Encode n tok ≠ Except.ok val) →
      ∃ e, cs.sc.Decode cs.name val dst = Except.error e)
    (hnew : ∀ n tok, cs.sc.Encode n tok ≠ Except.ok v')
    (hreq : r.Cookie cs.name = Except.ok got)
    (hval : got.Value = v') :
    (∃ e, cs.Get c r = (none, some e)) ∧
    (∀ T', cs.Get c r ≠ (some T', none)) ∧
    (∀ T v, cs.sc.Encode cs.name T = Except.ok v → v' ≠ v) ∧
    (∀ r' t, cs.Get c r' = (some t, none) →
      ∃ ck n tok, r'.Cookie cs.name = Except.ok ck ∧
        cs.sc.Encode n tok = Except.ok ck.Value ∧
        cs.sc.Decode cs.name ck.Value (make tokenLength) = Except.ok t) := by
  obtain ⟨e, he⟩ := hrej v' (make tokenLength) hnew
  have hget := Get_of_decode_error cs c r got e hreq (by rw [hval]; exact he)
  refine ⟨⟨e, hget⟩, ?_, ?_, ?_⟩
  · intro T' h
    rw [hget] at h
    simp at h
  · intro T v henc hv
    exact hnew cs.name T (by rw [hv]; exact henc)
  · intro r' t h
    cases hreq' : r'.Cookie cs.name with
    | error e' => simp [CookieStore.Get, hreq'] at h
    | ok ck =>
      cases hdec : cs.sc.Decode cs.name ck.Value (make tokenLength) with
      | error e' => rw [Get_of_decode_error cs c r' ck e' hreq' hdec] at h; simp at h
      | ok q =>
        rw [Get_of_decode_ok cs c r' ck q hreq' hdec] at h
        simp only [Prod.mk.injEq, Option.some.injEq, and_true] at h
        by_contra hnone
        have hall : ∀ n tok, cs.sc.Encode n tok ≠ Except.ok ck.Value := by
          intro n tok henc
          exact hnone ⟨ck, n, tok, rfl, henc, by rw [← h]; exact hdec⟩
        obtain ⟨e', he'⟩ := hrej ck.Value (make tokenLength) hall
        rw [hdec] at he'
        simp at he'

/-- Witness of C2 amended: the value Save wrote for the sample token with one
bit of its bar flipped, which `tagCodec` writes for no name and no token. -/
theorem Get_rejects_unproduced_witness :
    (∃ e, tagStore.Get {}
      (requestWith "csrf_token" "csrf_token~77777777777777777777777777777777")
        = (none, some e)) ∧
    (∀ T', tagStore.Get {}
      (requestWith "csrf_token" "csrf_token~77777777777777777777777777777777")
        ≠ (some T', none)) :=
  have h := Get_rejects_unproduced tagStore "csrf_token~77777777777777777777777777777777" {}
    (requestWith "csrf_token" "csrf_token~77777777777777777777777777777777")
    { Name := "csrf_token", Value := "csrf_token~77777777777777777777777777777777" }
    (fun val dst hnew => tagCodec_rejects_unproduced tagStore.name val dst hnew)
    (fun n tok henc => by
      have hbar := bar_mem_tagValue n tok
      have hval : tagValue n tok = "csrf_token~77777777777777777777777777777777" := by
        simpa [tagStore, tagCodec] using henc
      rw [hval] at hbar
      revert hbar
      decide)
    (requestWith_Cookie _ _) rfl
  ⟨h.1, h.2.1⟩

/-! ## Absent cookie -/

/-- The lookup fails with `ErrNoCookie` when no cookie bears the name. -/
theorem Request_Cookie_absent (r : http.Request) (name : String)
    (habs : ∀ ck ∈ r.cookies, ck.Name ≠ name) :
    r.Cookie name = Except.error GoError.ErrNoCookie := by
  have hnone : r.cookies.find? (fun ck => ck.Name == name) = none := by
    rw [List.find?_eq_none]
    intro ck hck
    simpa using habs ck hck
  simp [http.Request.Cookie, hnone]

/-- C3: for every request without a cookie of the configured name, Get returns
the transport error ErrNoCookie (the spec's NotFound) with a nil token, not an
empty or zero-filled one; the result does not depend on the codec, which is
never consulted; Get is a total function, so it returns and does not panic. -/
theorem Get_absent_cookie (cs : CookieStore) (c : web.C) (r : http.Request)
    (habs : ∀ ck ∈ r.cookies, ck.Name ≠ cs.name) :
    cs.Get c r = (none, some GoError.ErrNoCookie) ∧
    (cs.Get c r).1 ≠ some (make tokenLength) ∧ (cs.Get c r).1 ≠ some [] ∧
    (∀ sc, ({ cs with sc := sc } : CookieStore).Get c r = (none, some GoError.ErrNoCookie)) := by
  have hget : ∀ sc, ({ cs with sc := sc } : CookieStore).Get c r
      = (none, some GoError.ErrNoCookie) := by
    intro sc
    simp [CookieStore.Get, Request_Cookie_absent r cs.name habs]
  have h := hget cs.sc
  refine ⟨h, ?_, ?_, hget⟩ <;> simp [h]

/-- Witness of C3: a request carrying only a cookie of another name. -/
theorem Get_absent_cookie_witness :
    sampleStore.Get {} (requestWith "session" "csrf_token|sealed")
      = (none, some GoError.ErrNoCookie) :=
  (Get_absent_cookie sampleStore {} (requestWith "session" "csrf_token|sealed")
    (by decide)).1

/-! ## Decode failures and decoded payloads -/

/-- A codec whose Decode tells an expired value from a forged one, opens the
value `short` to three bytes, and leaves the destination as it is otherwise. -/
def verboseCodec : securecookie.SecureCookie where
  Encode name _ := .ok (name ++ "|sealed")
  Decode _ value dst :=
    if value = "expired" then .error (GoError.other "securecookie: expired timestamp")
    else if value = "forged" then .error (GoError.other "securecookie: the value is not valid")
    else if value = "short" then .ok [1, 2, 3]
    else .ok dst

/-- A store named `csrf_token` over `verboseCodec`. -/
def verboseStore : CookieStore :=
  { name := "csrf_token", maxAge := 3600, sc := verboseCodec }

/-- C4, as stated, fails: an expired and a forged cookie both fail to decode,
with different codec errors, and Get hands the caller two different errors. -/
theorem Get_decode_errors_distinguishable :
    verboseStore.sc.Decode "csrf_token" "expired" (make tokenLength)
      = Except.error (GoError.other "securecookie: expired timestamp") ∧
    verboseStore.sc.Decode "csrf_token" "forged" (make tokenLength)
      = Except.error (GoError.other "securecookie: the value is not valid") ∧
    verboseStore.Get {} (requestWith "csrf_token" "expired")
      = (none, some (GoError.other "securecookie: expired timestamp")) ∧
    verboseStore.Get {} (requestWith "csrf_token" "forged")
      = (none, some (GoError.other "securecookie: the value is not valid")) ∧
    verboseStore.Get {} (requestWith "csrf_token" "expired")
      ≠ verboseStore.Get {} (requestWith "csrf_token" "forged") := by
  refine ⟨rfl, rfl, by decide, by decide, by decide⟩

/-- C4, amended: for every request whose cookie is present but whose value the
codec fails to decode, Get returns a nil token and the error of Decode itself,
unchanged; two such failures give the caller the same result exactly when the
codec gave the same error. -/
theorem Get_returns_decode_error (cs : CookieStore) (c : web.C) (r₁ r₂ : http.Request)
    (ck₁ ck₂ : http.Cookie) (e₁ e₂ : GoError)
    (hreq₁ : r₁.Cookie cs.name = Except.ok ck₁)
    (hdec₁ : cs.sc.Decode cs.name ck₁.Value (make tokenLength) = Except.error e₁)
    (hreq₂ : r₂.Cookie cs.name = Except.ok ck₂)
    (hdec₂ : cs.sc.Decode cs.name ck₂.Value (make tokenLength) = Except.error e₂) :
    cs.Get c r₁ = (none, some e₁) ∧ cs.Get c r₂ = (none, some e₂) ∧
    (cs.Get c r₁ = cs.Get c r₂ ↔ e₁ = e₂) := by
  have h₁ := Get_of_decode_error cs c r₁ ck₁ e₁ hreq₁ hdec₁
  have h₂ := Get_of_decode_error cs c r₂ ck₂ e₂ hreq₂ hdec₂
  refine ⟨h₁, h₂, ?_⟩
  rw [h₁, h₂]
  simp

/-- Witness of C4 amended: the expired and the forged cookie of `verboseStore`. -/
theorem Get_returns_decode_error_witness :
    verboseStore.Get {} (requestWith "csrf_token" "expired")
      = (none, some (GoError.other "securecookie: expired timestamp")) ∧
    verboseStore.Get {} (requestWith "csrf_token" "forged")
      = (none, some (GoError.other "securecookie: the value is not valid")) ∧
    (verboseStore.Get {} (requestWith "csrf_token" "expired")
      = verboseStore.Get {} (requestWith "csrf_token" "forged") ↔
      GoError.other "securecookie: expired timestamp"
        = GoError.other "securecookie: the value is not valid") :=
  Get_returns_decode_error verboseStore {} (requestWith "csrf_token" "expired")
    (requestWith "csrf_token" "forged")
    { Name := "csrf_token", Value := "expired" } { Name := "csrf_token", Value := "forged" }
    _ _ (requestWith_Cookie _ _) rfl (requestWith_Cookie _ _) rfl

/-- C5, as stated, fails: Decode succeeds with a payload of three bytes and Get
returns that payload with a nil error. -/
theorem Get_returns_short_payload :
    verboseStore.sc.Decode "csrf_token" "short" (make tokenLength) = Except.ok [1, 2, 3] ∧
    verboseStore.Get {} (requestWith "csrf_token" "short") = (some [1, 2, 3], none) ∧
    ¬ (∀ t, (verboseStore.Get {} (requestWith "csrf_token" "short")).1 = some t →
        t.length = tokenLength) := by
  refine ⟨rfl, by decide, ?_⟩
  intro h
  have := h [1, 2, 3] (by decide)
  revert this
  decide

/-- C5, amended: Get hands Decode a destination of tokenLength zero bytes and
checks no length itself: Get returns a token p with a nil error exactly when
the cookie is present and Decode succeeds leaving p in the destination,
whatever the length of p; and whenever Get returns a nil error it returns such
a token, which has tokenLength bytes exactly when the decoded payload has. -/
theorem Get_returns_decoded_payload (cs : CookieStore) (c : web.C) (r : http.Request) :
    (make tokenLength).length = 32 ∧
    (∀ p, cs.Get c r = (some p, none) ↔
      ∃ ck, r.Cookie cs.name = Except.ok ck ∧
        cs.sc.Decode cs.name ck.Value (make tokenLength) = Except.ok p) ∧
    ((cs.Get c r).2 = none → ∃ p, cs.Get c r = (some p, none)) := by
  refine ⟨by simp [make, tokenLength], ?_, ?_⟩
  · intro p
    constructor
    · intro h
      cases hreq : r.Cookie cs.name with
      | error e => simp [CookieStore.Get, hreq] at h
      | ok ck =>
        cases hdec : cs.sc.Decode cs.name ck.Value (make tokenLength) with
        | error e => rw [Get_of_decode_error cs c r ck e hreq hdec] at h; simp at h
        | ok q =>
          rw [Get_of_decode_ok cs c r ck q hreq hdec] at h
          simp only [Prod.mk.injEq, Option.some.injEq, and_true] at h
          exact ⟨ck, rfl, by rw [← h]; exact hdec⟩
    · rintro ⟨ck, hreq, hdec⟩
      exact Get_of_decode_ok cs c r ck p hreq hdec
  · intro hnil
    cases hreq : r.Cookie cs.name with
    | error e => simp [CookieStore.Get, hreq] at hnil
    | ok ck =>
      cases hdec : cs.sc.Decode cs.name ck.Value (make tokenLength) with
      | error e => rw [Get_of_decode_error cs c r ck e hreq hdec] at hnil; simp at hnil
      | ok p => exact ⟨p, Get_of_decode_ok cs c r ck p hreq hdec⟩

/-- Witness of C5 amended: the three-byte payload of `verboseStore`. -/
theorem Get_returns_decoded_payload_witness :
    verboseStore.Get {} (requestWith "csrf_token" "short") = (some [1, 2, 3], none) :=
  ((Get_returns_decoded_payload verboseStore {} (requestWith "csrf_token" "short")).2.1
    [1, 2, 3]).mpr ⟨{ Name := "csrf_token", Value := "short" }, requestWith_Cookie _ _, rfl⟩

/-! ## Expiry -/

/-- Wrapping leaves a value of the `int64` range as it is. -/
theorem wrapInt64_of_range (x : Int) (hlo : -9223372036854775808 ≤ x)
    (hhi : x < 9223372036854775808) : time.wrapInt64 x = x := by
  unfold time.wrapInt64
  norm_num
  omega

/-- The product `time.Duration(maxAge) * time.Second` without wrap. -/
theorem Duration_mul_Second_exact (n : Int) (hpos : 0 < n) (hle : n ≤ 9223372036) :
    time.Duration.mul (time.toDuration n) time.Second = n * 1000000000 := by
  unfold time.Duration.mul time.toDuration time.Second
  rw [wrapInt64_of_range n (by omega) (by omega)]
  exact wrapInt64_of_range _ (by omega) (by omega)

/-- A store with a max-age of 9223372037 seconds, a positive value of a
64-bit `int`. -/
def longLivedStore : CookieStore :=
  { name := "csrf_token", maxAge := 9223372037, sc := sealCodec sampleToken }

/-- C6, as stated, fails: with maxAge = 9223372037 > 0 the product
Duration(maxAge) * Second wraps to a negative duration, and the cookie Save
emits expires before now, not maxAge seconds after it. -/
theorem Save_expiry_wraps :
    (0 : Int) < longLivedStore.maxAge ∧ longLivedStore.maxAge < 2 ^ 63 ∧
    time.Duration.mul (time.toDuration longLivedStore.maxAge) time.Second
      = -9223372036709551616 ∧
    ∃ ck, longLivedStore.Save sampleToken emptyResponse (time.Unix 1700000000 0)
        = ({ header := [http.HeaderLine.setCookie ck] }, none) ∧
      ck.Expires ≠ (time.Unix 1700000000 0).Add (longLivedStore.maxAge * 1000000000) ∧
      ck.Expires.Before (time.Unix 1700000000 0) := by
  refine ⟨by decide, by decide, by decide,
    { Name := "csrf_token", Value := "csrf_token|sealed", MaxAge := 9223372037,
      Expires := ⟨-7523372036709551616⟩ }, by decide, by decide, by decide⟩

/-- C6, amended: for every configured maxAge with 0 < maxAge <= 9223372036
(the values whose product with 10^9 fits 64 bits; 3600 is one) and every save
time now, the product Duration(maxAge) * Second does not wrap, and the cookie
Save hands to http.SetCookie, which a valid cookie name makes the one line
appended to the response, has Expires equal to now plus exactly maxAge
seconds, strictly later than now. -/
theorem Save_expiry_positive_maxAge (cs : CookieStore) (token : Bytes)
    (w : http.ResponseWriter) (now : time.Time) (v : String)
    (hpos : 0 < cs.maxAge) (hle : cs.maxAge ≤ 9223372036)
    (henc : cs.sc.Encode cs.name token = Except.ok v) :
    time.Duration.mul (time.toDuration cs.maxAge) time.Second = cs.maxAge * 1000000000 ∧
    ∃ ck, cs.Save token w now = (http.SetCookie w ck, none) ∧
      ck.Name = cs.name ∧ ck.Value = v ∧ ck.MaxAge = cs.maxAge ∧
      (http.isCookieNameValid cs.name = true → cs.Save token w now
        = ({ header := w.header ++ [http.HeaderLine.setCookie ck] }, none)) ∧
      ck.Expires = now.Add (cs.maxAge * 1000000000) ∧
      ck.Expires.unixNano = now.unixNano + cs.maxAge * 1000000000 ∧
      now.Before ck.Expires := by
  have hmul := Duration_mul_Second_exact cs.maxAge hpos hle
  have hsave := Save_of_encode_ok cs token w now v henc
  refine ⟨hmul, _, hsave, rfl, rfl, rfl, ?_, ?_, ?_, ?_⟩
  · intro hname
    rw [hsave, SetCookie_of_valid w _ hname]
  · simp only [gt_iff_lt, hpos, if_true, hmul]
  · simp only [gt_iff_lt, hpos, if_true, hmul, time.Time.Add]
  · simp only [gt_iff_lt, hpos, if_true, hmul, time.Time.Add, time.Time.Before]
    omega

/-- Witness of C6 amended: the sample store, whose max-age is 3600. -/
theorem Save_expiry_positive_maxAge_witness :
    ∃ ck, sampleStore.Save sampleToken emptyResponse (time.Unix 1700000000 0)
        = (http.SetCookie emptyResponse ck, none) ∧
      ck.Name = sampleStore.name ∧ ck.Value = "csrf_token|sealed" ∧
      ck.MaxAge = sampleStore.maxAge ∧
      (http.isCookieNameValid sampleStore.name = true →
        sampleStore.Save sampleToken emptyResponse (time.Unix 1700000000 0)
          = ({ header := emptyResponse.header ++ [http.HeaderLine.setCookie ck] }, none)) ∧
      ck.Expires = (time.Unix 1700000000 0).Add (sampleStore.maxAge * 1000000000) ∧
      ck.Expires.unixNano = (time.Unix 1700000000 0).unixNano + sampleStore.maxAge * 1000000000 ∧
      (time.Unix 1700000000 0).Before ck.Expires :=
  (Save_expiry_positive_maxAge sampleStore sampleToken emptyResponse (time.Unix 1700000000 0)
    "csrf_token|sealed" (by decide) (by decide) rfl).2

/-- A store with a max-age of zero. -/
def sessionStore : CookieStore :=
  { name := "csrf_token", maxAge := 0, sc := sealCodec sampleToken }

/-- C7, as stated, fails at its boundary: saved at exactly one second after the
Unix epoch, with maxAge = 0, the cookie expires at the save time itself, not
strictly before it. -/
theorem Save_expiry_not_past_at_unix_one :
    sessionStore.maxAge ≤ 0 ∧
    (time.Unix 0 0).Add time.Second = time.Unix 1 0 ∧
    ∃ ck, sessionStore.Save sampleToken emptyResponse (time.Unix 1 0)
        = ({ header := [http.HeaderLine.setCookie ck] }, none) ∧
      ck.Expires = time.Unix 1 0 ∧
      ¬ ck.Expires.Before (time.Unix 1 0) := by
  refine ⟨by decide, by decide,
    { Name := "csrf_token", Value := "csrf_token|sealed", MaxAge := 0,
      Expires := time.Unix 1 0 }, by decide, by decide, by decide⟩

/-- C7, amended: for every configured maxAge <= 0 and every save time now
strictly after Unix second 1, the cookie Save hands to http.SetCookie, which a
valid cookie name makes the one line appended to the response, has Expires
equal to the fixed instant Unix second 1, whatever now and maxAge are,
strictly in the past; it carries the encoded token as its value and MaxAge
equal to the configured maxAge. -/
theorem Save_expiry_nonpositive_maxAge (cs : CookieStore) (token : Bytes)
    (w : http.ResponseWriter) (now : time.Time) (v : String)
    (hnonpos : cs.maxAge ≤ 0) (hnow : (time.Unix 1 0).Before now)
    (henc : cs.sc.Encode cs.name token = Except.ok v) :
    ∃ ck, cs.Save token w now = (http.SetCookie w ck, none) ∧
      ck.Name = cs.name ∧
      (http.isCookieNameValid cs.name = true → cs.Save token w now
        = ({ header := w.header ++ [http.HeaderLine.setCookie ck] }, none)) ∧
      ck.Expires = time.Unix 1 0 ∧ ck.Expires.unixNano = 1000000000 ∧
      ck.Expires.Before now ∧ ck.Value = v ∧ ck.MaxAge = cs.maxAge := by
  have hif : ¬ cs.maxAge > 0 := by omega
  have hsave := Save_of_encode_ok cs token w now v henc
  refine ⟨_, hsave, rfl, ?_, ?_, ?_, ?_, rfl, rfl⟩
  · intro hname
    rw [hsave, SetCookie_of_valid w _ hname]
  · simp only [hif, if_false]
  · simp only [hif, if_false]; rfl
  · simp only [hif, if_false]; exact hnow

/-- Witness of C7 amended: the session store, saving one nanosecond after Unix
second 1. -/
theorem Save_expiry_nonpositive_maxAge_witness :
    ∃ ck, sessionStore.Save sampleToken emptyResponse (time.Unix 1 1)
        = (http.SetCookie emptyResponse ck, none) ∧
      ck.Name = sessionStore.name ∧
      (http.isCookieNameValid sessionStore.name = true →
        sessionStore.Save sampleToken emptyResponse (time.Unix 1 1)
          = ({ header := emptyResponse.header ++ [http.HeaderLine.setCookie ck] }, none)) ∧
      ck.Expires = time.Unix 1 0 ∧ ck.Expires.unixNano = 1000000000 ∧
      ck.Expires.Before (time.Unix 1 1) ∧ ck.Value = "csrf_token|sealed" ∧
      ck.MaxAge = sessionStore.maxAge :=
  Save_expiry_nonpositive_maxAge sessionStore sampleToken emptyResponse (time.Unix 1 1)
    "csrf_token|sealed" (by decide) (by decide) rfl

/-! ## Failure and effect of Save -/

/-- A token the sample store cannot encode. -/
def oddToken : Bytes := [1, 2, 3]

/-- A response that already carries two header lines. -/
def busyResponse : http.ResponseWriter :=
  { header := [http.HeaderLine.other "Content-Type" "text/html",
      http.HeaderLine.setCookie { Name := "session", Value := "abc" }] }

/-- C8: for every token, of any length, every response and every save time,
Save returns a non-nil error exactly when Encode(name, token) returns an error;
the error it returns is the one Encode returned, and the response is then
handed back unchanged, with no Set-Cookie line appended. -/
theorem Save_fails_iff_Encode_fails (cs : CookieStore) (token : Bytes)
    (w : http.ResponseWriter) (now : time.Time) :
    ((cs.Save token w now).2 ≠ none ↔
      ∃ e, cs.sc.Encode cs.name token = Except.error e) ∧
    (∀ e, (cs.Save token w now).2 = some e ↔
      cs.sc.Encode cs.name token = Except.error e) ∧
    ((cs.Save token w now).2 ≠ none → (cs.Save token w now).1 = w) := by
  cases henc : cs.sc.Encode cs.name token with
  | error e => simp [Save_of_encode_error cs token w now e henc]
  | ok v => simp [Save_of_encode_ok cs token w now v henc]

/-- Witness of C8: the sample store refuses a three-byte token and leaves the
two header lines of the response as they were. -/
theorem Save_fails_iff_Encode_fails_witness :
    (sampleStore.Save oddToken busyResponse (time.Unix 1700000000 0)).2
      = some (GoError.other "securecookie: the value is too long") ∧
    (sampleStore.Save oddToken busyResponse (time.Unix 1700000000 0)).1 = busyResponse :=
  ⟨((Save_fails_iff_Encode_fails sampleStore oddToken busyResponse
      (time.Unix 1700000000 0)).2.1 _).mpr rfl,
    (Save_fails_iff_Encode_fails sampleStore oddToken busyResponse
      (time.Unix 1700000000 0)).2.2 (by decide)⟩

/-- A store whose configured name, with a blank in it, is no valid cookie
name; its codec encodes under every name. -/
def badNameStore : CookieStore :=
  { name := "bad name", maxAge := 3600, sc := tagCodec }

/-- C9: the claim holds of Save as documented (it "writes a cookie to the
http.ResponseWriter") but not of the code: with the configured name
`bad name`, Encode succeeds and Save returns a nil error, yet no Set-Cookie
line is appended, since http.SetCookie drops a cookie whose name is not valid
and Save returns nil without looking; the response stays as it was. The store
of the same codec under the valid name `csrf_token` does append the line. -/
theorem Save_success_without_cookie :
    http.isCookieNameValid badNameStore.name = false ∧
    badNameStore.sc.Encode badNameStore.name sampleToken
      = Except.ok "bad name|77777777777777777777777777777777" ∧
    badNameStore.Save sampleToken emptyResponse (time.Unix 1700000000 0)
      = (emptyResponse, none) ∧
    (badNameStore.Save sampleToken emptyResponse (time.Unix 1700000000 0)).1.header = [] ∧
    tagStore.Save sampleToken emptyResponse (time.Unix 1700000000 0)
      = ({ header := [http.HeaderLine.setCookie
          { Name := "csrf_token", Value := "csrf_token|77777777777777777777777777777777",
            Path := "", Domain := "", Expires := time.Unix 1700003600 0, MaxAge := 3600,
            Secure := false, HttpOnly := false }] }, none) := by
  refine ⟨by decide, congrArg Except.ok (by decide), by decide, by decide, by decide⟩

/-! ## Cross-name isolation -/

/-- Appending the seal to two names gives equal strings only for equal names. -/
theorem append_seal_inj (n n' : String) (h : n ++ "|sealed" = n' ++ "|sealed") : n = n' := by
  have hdata := congrArg String.data h
  simp only [String.data_append] at hdata
  exact String.ext (List.append_cancel_right hdata)

/-- The seal codec binds the name: it opens under one name nothing it sealed
under another. -/
theorem sealCodec_binds_name (T : Bytes) (n n' : String) (tok : Bytes) (val : String)
    (dst : Bytes) (h : (sealCodec T).Encode n tok = Except.ok val) (hne : n' ≠ n) :
    ∃ e, (sealCodec T).Decode n' val dst = Except.error e := by
  simp only [sealCodec] at h ⊢
  split at h
  · simp only [Except.ok.injEq] at h
    have hval : ¬ val = n' ++ "|sealed" := by
      intro hv
      exact hne (append_seal_inj n' n (by rw [← hv, h]))
    simp [hval]
  · simp at h

/-- C10: Save encodes under the configured name and Get decodes under the
configured name, the one it looks the cookie up by. So for two stores over the
same codec with different names A and B, the codec refusing to decode under
one name what it encoded under another, the value the store named A wrote,
presented in a cookie named B, makes Get on the store named B return a nil
token and the error of that refused Decode (the spec's InvalidToken). -/
theorem Get_cross_name_isolation (sc : securecookie.SecureCookie) (A B : String)
    (maxAgeA maxAgeB : Int) (T : Bytes) (w : http.ResponseWriter) (now : time.Time)
    (c : web.C) (r : http.Request) (written got : http.Cookie)
    (hAB : A ≠ B)
    (hbind : ∀ n n' tok val dst, sc.Encode n tok = Except.ok val → n' ≠ n →
      ∃ e, sc.Decode n' val dst = Except.error e)
    (hsave : ((CookieStore.mk A maxAgeA sc).Save T w now).2 = none)
    (hwrote : ((CookieStore.mk A maxAgeA sc).Save T w now).1.header
      = w.header ++ [http.HeaderLine.setCookie written])
    (hreq : r.Cookie B = Except.ok got)
    (hval : got.Value = written.Value) :
    sc.Encode A T = Except.ok written.Value ∧
    ∃ e, sc.Decode B written.Value (make tokenLength) = Except.error e ∧
      (CookieStore.mk B maxAgeB sc).Get c r = (none, some e) := by
  cases henc : sc.Encode A T with
  | error e =>
    rw [Save_of_encode_error (CookieStore.mk A maxAgeA sc) T w now e henc] at hsave
    simp at hsave
  | ok v =>
    rw [Save_of_encode_ok (CookieStore.mk A maxAgeA sc) T w now v henc] at hwrote
    have hv : written.Value = v := by rw [SetCookie_appended w _ written hwrote]
    obtain ⟨e, he⟩ := hbind A B T v (make tokenLength) henc (Ne.symm hAB)
    refine ⟨by rw [hv], e, by rw [hv]; exact he, ?_⟩
    exact Get_of_decode_error (CookieStore.mk B maxAgeB sc) c r got e hreq
      (by rw [hval, hv]; exact he)

/-- Witness of C10: the value sealed under `csrf_token`, presented as the
cookie `other_token` to a store of that name. -/
theorem Get_cross_name_isolation_witness :
    ∃ e, (sealCodec sampleToken).Decode "other_token" "csrf_token|sealed" (make tokenLength)
        = Except.error e ∧
      (CookieStore.mk "other_token" 60 (sealCodec sampleToken)).Get {}
        (requestWith "other_token" "csrf_token|sealed") = (none, some e) :=
  (Get_cross_name_isolation (sealCodec sampleToken) "csrf_token" "other_token" 3600 60
    sampleToken emptyResponse (time.Unix 1700000000 0) {}
    (requestWith "other_token" "csrf_token|sealed")
    { Name := "csrf_token", Value := "csrf_token|sealed", MaxAge := 3600,
      Expires := time.Unix 1700003600 0 }
    { Name := "other_token", Value := "csrf_token|sealed" }
    (by decide) (fun n n' tok val dst h hne => sealCodec_binds_name sampleToken n n' tok val dst h hne)
    (by decide) (by decide) (requestWith_Cookie _ _) rfl).2

end csrf
